import Mathlib

/-!
# HFNewsAggregator: dedup cache, batch filtering, classifier adapter, alert matcher

A shallow embedding of the Go packages `internal/models`, `internal/cache`,
`internal/ai`, `internal/aggregator`, `internal/telegram` and
`internal/sources`.

Modelling conventions.

* A Go `string` is a Lean `String`; the strings handled here come out of JSON
  decoding, hence are sequences of Unicode code points.
* A Go `map[string]V` is an association list with pairwise distinct keys
  (`AList`); `len(m)` is the number of its entries.
* A `time.Time` is an integer count of nanoseconds on the time line, the zero
  `Time` being `0`; every call of `time.Now()` is an explicit argument.
* A `time.Duration` is an `int64` count of nanoseconds; its unary minus wraps
  around as in Go.
* A remote call (a feed, the classifier, the Telegram API) is an explicit
  argument for what it returns, or an entry in the list of calls made.
* Mutex operations are dropped: each method body runs atomically under the
  lock, so a method is a function from the state before to the state after.
-/

namespace models

/-- The struct `Article` of `internal/models/article.go`. -/
structure Article where
  ID : String
  Title : String
  Content : String
  URL : String
  Source : String
  PublishedAt : Int
  Hash : String
  Category : String
  Tags : List String
  Sentiment : String
  Summary : String
  Metadata : List (String × String)
deriving DecidableEq, Repr

/-- The zero value `models.Article{}`. -/
def Article.zero : Article :=
  { ID := "", Title := "", Content := "", URL := "", Source := "", PublishedAt := 0,
    Hash := "", Category := "", Tags := [], Sentiment := "", Summary := "", Metadata := [] }

/-- The struct `CategorizedArticle` of `internal/models/article.go`: an embedded
`Article`, a confidence (a `float64`, only ever copied by the modelled code and
carried here as a rational) and the time of classification. -/
structure CategorizedArticle where
  Article : Article
  Confidence : Rat
  ProcessedAt : Int
deriving DecidableEq, Repr

/-- The struct `UserAlert` of `internal/models/article.go`. -/
structure UserAlert where
  UserID : Int
  ChatID : Int
  Keywords : List String
  Categories : List String
  Tags : List String
  Enabled : Bool
deriving DecidableEq, Repr

end models

namespace cache

open models

/-- A Go `map[string]V`. -/
abbrev GoMap (V : Type) := AList (fun _ : String => V)

/-- The data fields of the struct `Cache` of `internal/cache/cache.go`. -/
structure Cache where
  articles : GoMap Article
  processed : GoMap Int
  retention : Int

/-- The state built by `New`: two empty maps and the given retention. -/
def New (retention : Int) : Cache :=
  { articles := ∅, processed := ∅, retention := retention }

/-- `AddArticle`: store the article under its hash and stamp that hash with
the current time. -/
def AddArticle (c : Cache) (article : Article) (now : Int) : Cache :=
  { articles := c.articles.insert article.Hash article,
    processed := c.processed.insert article.Hash now,
    retention := c.retention }

/-- `HasArticle`: is the hash a key of the `articles` map. -/
def HasArticle (c : Cache) (hash : String) : Bool :=
  match c.articles.lookup hash with
  | some _ => true
  | none => false

/-- `GetArticle`: the comma-ok lookup `c.articles[hash]`. -/
def GetArticle (c : Cache) (hash : String) : Article × Bool :=
  match c.articles.lookup hash with
  | some article => (article, true)
  | none => (Article.zero, false)

/-- `GetUnprocessedArticles`: the stored articles whose hash has no entry in
`processed`. -/
def GetUnprocessedArticles (c : Cache) : List Article :=
  c.articles.entries.foldl
    (fun unprocessed e =>
      match c.processed.lookup e.1 with
      | some _ => unprocessed
      | none => unprocessed ++ [e.2])
    []

/-- `MarkProcessed`: the assignment `c.processed[hash] = time.Now()`. -/
def MarkProcessed (c : Cache) (hash : String) (now : Int) : Cache :=
  { articles := c.articles,
    processed := c.processed.insert hash now,
    retention := c.retention }

/-- The value of an `int64` computation whose exact result is `x`. -/
def wrapInt64 (x : Int) : Int :=
  (x + 2 ^ 63) % 2 ^ 64 - 2 ^ 63

/-- Unary minus on a `time.Duration`. -/
def negDuration (d : Int) : Int :=
  wrapInt64 (-d)

/-- One iteration of the loop of `performCleanup` on the entry `e` of
`processed`. -/
def cleanupStep (cutoff : Int) (c : Cache) (e : Sigma fun _ : String => Int) : Cache :=
  if e.2 < cutoff then
    { articles := c.articles.erase e.1,
      processed := c.processed.erase e.1,
      retention := c.retention }
  else c

/-- `performCleanup`: with `cutoff = now.Add(-retention)`, range over the
entries of `processed` and delete from both maps every hash whose time is
before the cutoff. -/
def performCleanup (c : Cache) (now : Int) : Cache :=
  let cutoff := now + negDuration c.retention
  c.processed.entries.foldl (cleanupStep cutoff) c

/-- One call on the cache, with the clock reading it makes. -/
inductive Op where
  | add (article : Article) (now : Int)
  | mark (hash : String) (now : Int)
  | cleanup (now : Int)

/-- The state after one call. -/
def Op.apply (c : Cache) : Op → Cache
  | .add article now => AddArticle c article now
  | .mark hash now => MarkProcessed c hash now
  | .cleanup now => performCleanup c now

/-- The state after a sequence of calls, first call first. -/
def run (c : Cache) (ops : List Op) : Cache :=
  ops.foldl Op.apply c

/-- The test of `performCleanup` on the entry of `hash`: it has a processed
time and that time is before `now.Add(-retention)`. -/
def expired (c : Cache) (now : Int) (hash : String) : Bool :=
  match c.processed.lookup hash with
  | some processedTime => decide (processedTime < now + negDuration c.retention)
  | none => false

/-- No sweep of the sequence `ops`, run from `c`, finds the entry of `hash`
expired. -/
def notSwept (hash : String) : Cache → List Op → Bool
  | _, [] => true
  | c, .cleanup now :: ops =>
    if expired c now hash then false else notSwept hash (performCleanup c now) ops
  | c, op :: ops => notSwept hash (op.apply c) ops

/-- The map returned by `Stats`; the retention is kept as a duration instead
of its rendering `retention.String()`. -/
structure StatsResult where
  total_articles : Nat
  processed : Nat
  retention : Int
deriving DecidableEq, Repr

/-- `Stats`. -/
def Stats (c : Cache) : StatsResult :=
  { total_articles := c.articles.entries.length,
    processed := c.processed.entries.length,
    retention := c.retention }

end cache

namespace unicode

/-- The case tables of Go's package `unicode`, which are no part of the
repository: `lower r` is `unicode.ToLower(r)` for a rune `r` above ASCII, and
`foldOrbit sr tr` says whether the walk `r := SimpleFold(sr); for r != sr &&
r < tr` of `strings.EqualFold` ends on `tr`, for runes `sr < tr` with `tr`
above ASCII. -/
structure Tables where
  lower : Char → Char
  foldOrbit : Char → Char → Bool

/-- Go's `unicode.ToLower`: ASCII capitals move by `'a' - 'A'`, other ASCII
runes stay, the rest goes through the table. -/
def ToLower (u : Tables) (r : Char) : Char :=
  if r.toNat ≤ 0x7F then
    if 'A'.toNat ≤ r.toNat ∧ r.toNat ≤ 'Z'.toNat then Char.ofNat (r.toNat + ('a'.toNat - 'A'.toNat))
    else r
  else u.lower r

end unicode

namespace strings

/-- Go's `strings.ToLower`: every rune mapped by `unicode.ToLower`. -/
def ToLower (u : unicode.Tables) (s : String) : String :=
  String.mk (s.data.map (unicode.ToLower u))

/-- Does `substr` occur in `s` as a contiguous block, searching from the left
(`strings.Index(s, substr) >= 0` on rune sequences). -/
def containsRunes (s substr : List Char) : Bool :=
  match s with
  | [] => substr.isPrefixOf []
  | r :: rest => substr.isPrefixOf (r :: rest) || containsRunes rest substr

/-- Go's `strings.Contains`. -/
def Contains (s substr : String) : Bool :=
  containsRunes s.data substr.data

/-- The test that `strings.EqualFold` makes on one pair of runes: equal, or,
after ordering them as `sr < tr`, an ASCII capital and its small letter, or,
when `tr` is above ASCII, related by the fold orbit. -/
def equalFoldRune (u : unicode.Tables) (sr tr : Char) : Bool :=
  if tr = sr then true
  else
    let lo := if tr.toNat < sr.toNat then tr else sr
    let hi := if tr.toNat < sr.toNat then sr else tr
    if hi.toNat < 0x80 then
      decide ('A'.toNat ≤ lo.toNat ∧ lo.toNat ≤ 'Z'.toNat ∧ hi.toNat = lo.toNat + ('a'.toNat - 'A'.toNat))
    else u.foldOrbit lo hi

/-- The rune loop of `strings.EqualFold`: both sequences end together and
every pair of runes passes `equalFoldRune`. -/
def equalFoldRunes (u : unicode.Tables) : List Char → List Char → Bool
  | [], [] => true
  | [], _ :: _ => false
  | _ :: _, [] => false
  | sr :: s, tr :: t => if equalFoldRune u sr tr then equalFoldRunes u s t else false

/-- Every rune of the string is below `utf8.RuneSelf`. -/
def isASCII (s : String) : Bool :=
  s.data.all (fun r => decide (r.toNat < 0x80))

/-- Go's `strings.EqualFold`. -/
def EqualFold (u : unicode.Tables) (s t : String) : Bool :=
  equalFoldRunes u s.data t.data

end strings

namespace ai

open models

/-- The struct `CategorizedArticle` of `internal/ai/openai.go`: one entry of
the classifier's JSON answer. -/
structure CategorizedArticle where
  ID : String
  Category : String
  Tags : List String
  Sentiment : String
  Summary : String
  Confidence : Rat
deriving DecidableEq, Repr

/-- The struct `CategorizationResponse`. -/
structure CategorizationResponse where
  Articles : List CategorizedArticle
deriving DecidableEq, Repr

/-- What the remote call and the decoding of its answer come to inside
`CategorizeArticles`: the request fails, the answer has no choice, the content
is not valid JSON, or it decodes to a response. -/
inductive Completion where
  | requestFailed (err : String)
  | noChoices
  | parseFailed (err : String)
  | parsed (resp : CategorizationResponse)
deriving DecidableEq, Repr

/-- `findArticleByID`: the first article with the given ID, the zero `Article`
when there is none. -/
def findArticleByID (articles : List Article) (id : String) : Article :=
  match articles with
  | [] => Article.zero
  | article :: rest => if article.ID = id then article else findArticleByID rest id

/-- The loop of `CategorizeArticles` over the entries of the response, `tick`
being the number of clock readings made so far. -/
def categorizeLoop (articles : List Article) (clock : Nat → Int) :
    Nat → List CategorizedArticle → List models.CategorizedArticle → List models.CategorizedArticle
  | _, [], categorized => categorized
  | tick, catArticle :: rest, categorized =>
    categorizeLoop articles clock (tick + 1) rest
      (categorized ++
        [{ Article := findArticleByID articles catArticle.ID,
           Confidence := catArticle.Confidence,
           ProcessedAt := clock tick }])

/-- `CategorizeArticles`; `clock k` is the k-th reading of `time.Now()`. -/
def CategorizeArticles (articles : List Article) (completion : Completion) (clock : Nat → Int) :
    Except String (List models.CategorizedArticle) :=
  if articles.length = 0 then .ok []
  else
    match completion with
    | .requestFailed err => .error ("openai request failed: " ++ err)
    | .noChoices => .error "no response from openai"
    | .parseFailed err => .error ("failed to parse openai response: " ++ err)
    | .parsed resp => .ok (categorizeLoop articles clock 0 resp.Articles [])

end ai

namespace telegram

open models strings

/-- `matchesAlert`: the three loops with their early returns. -/
def matchesAlert (u : unicode.Tables) (article : models.CategorizedArticle) (alert : UserAlert) : Bool :=
  if alert.Categories.any (fun category => EqualFold u article.Article.Category category) then true
  else if alert.Keywords.any (fun keyword =>
      Contains (ToLower u (article.Article.Title ++ " " ++ article.Article.Content)) (ToLower u keyword)) then true
  else if alert.Tags.any (fun tag =>
      article.Article.Tags.any (fun articleTag => EqualFold u articleTag tag)) then true
  else false

end telegram

namespace aggregator

open models cache

/-- `filterNewArticles`: append to the result, in order, each article whose
hash the cache does not have. -/
def filterNewArticles (c : Cache) (articles : List Article) : List Article :=
  articles.foldl
    (fun newArticles article =>
      if !HasArticle c article.Hash then newArticles ++ [article] else newArticles)
    []

/-- The fetch stage of `processNewsBatch`. `results` lists what the sources
returned, in the order in which their goroutines reach the merge; a source
that failed appends nothing. -/
def mergeFetched (results : List (Except String (List Article))) : List Article :=
  results.foldl
    (fun allArticles r =>
      match r with
      | .ok articles => allArticles ++ articles
      | .error _ => allArticles)
    []

/-- The last loop of `processNewsBatch`: each categorized article is added to
the cache and marked processed (two clock readings each). -/
def updateCache (clock : Nat → Int) : Nat → Cache → List models.CategorizedArticle → Cache
  | _, c, [] => c
  | tick, c, catArticle :: rest =>
    updateCache clock (tick + 2)
      (MarkProcessed (AddArticle c catArticle.Article (clock tick)) catArticle.Article.Hash
        (clock (tick + 1)))
      rest

/-- What one call of `processNewsBatch` leaves behind: the returned error,
the cache, and the articles for which a `SendAlert` goroutine was started. -/
structure BatchResult where
  err : Option String
  cache : Cache
  alerts : List models.CategorizedArticle

/-- `processNewsBatch`. -/
def processNewsBatch (c : Cache) (results : List (Except String (List Article)))
    (completion : ai.Completion) (clock : Nat → Int) : BatchResult :=
  let allArticles := mergeFetched results
  let newArticles := filterNewArticles c allArticles
  if newArticles.length = 0 then { err := none, cache := c, alerts := [] }
  else
    match ai.CategorizeArticles newArticles completion clock with
    | .error e => { err := some ("failed to categorize articles: " ++ e), cache := c, alerts := [] }
    | .ok categorized =>
      { err := none,
        cache := updateCache clock categorized.length c categorized,
        alerts := categorized }

end aggregator

namespace aggregator

open models

/-- What one source adds to the batch: its items when it succeeded, nothing
when it failed. -/
def contribution (r : Except String (List Article)) : List Article :=
  match r with
  | .ok articles => articles
  | .error _ => []

end aggregator

namespace fmt

/-- The rendering by verb `%v` of a `[]string`: the elements separated by one
space, between square brackets. -/
def sliceV (xs : List String) : String :=
  "[" ++ " ".intercalate xs ++ "]"

end fmt

namespace unicode

/-- Go's `unicode.IsSpace`: in Latin-1 the runes tab, line feed, vertical tab,
form feed, carriage return, space, U+0085 and U+00A0; above Latin-1 the
property table `White_Space`, given as `whiteSpace`. -/
def IsSpace (whiteSpace : Char → Bool) (r : Char) : Bool :=
  if r.toNat ≤ 0xFF then
    decide (r.toNat = 0x09 ∨ r.toNat = 0x0A ∨ r.toNat = 0x0B ∨ r.toNat = 0x0C ∨ r.toNat = 0x0D
      ∨ r.toNat = 0x20 ∨ r.toNat = 0x85 ∨ r.toNat = 0xA0)
  else whiteSpace r

end unicode

namespace strings

/-- The scan of `strings.Fields`: `field` is the field being read. -/
def fieldsRunes (whiteSpace : Char → Bool) : List Char → List Char → List (List Char)
  | [], field => if field.isEmpty then [] else [field]
  | r :: rest, field =>
    if unicode.IsSpace whiteSpace r then
      if field.isEmpty then fieldsRunes whiteSpace rest []
      else field :: fieldsRunes whiteSpace rest []
    else fieldsRunes whiteSpace rest (field ++ [r])

/-- Go's `strings.Fields`: the maximal blocks of runes that are not white
space. -/
def Fields (whiteSpace : Char → Bool) (s : String) : List String :=
  (fieldsRunes whiteSpace s.data []).map String.mk

/-- The scan of `strings.SplitN` for a separator of one rune: `n` pieces may
still be produced, `piece` is the piece being read. -/
def splitNRunes (sep : Char) : Nat → List Char → List Char → List (List Char)
  | _, [], piece => [piece]
  | n, r :: rest, piece =>
    if n ≤ 1 then [piece ++ r :: rest]
    else if r = sep then piece :: splitNRunes sep (n - 1) rest []
    else splitNRunes sep n rest (piece ++ [r])

/-- Go's `strings.SplitN(s, sep, n)` for a separator of one rune and `n > 0`
(`n = 0` gives no piece). -/
def SplitN (s : String) (sep : Char) (n : Nat) : List String :=
  if n = 0 then [] else (splitNRunes sep n s.data []).map String.mk

/-- The scan of `strings.Split` for a separator of one rune. -/
def splitRunes (sep : Char) : List Char → List Char → List (List Char)
  | [], piece => [piece]
  | r :: rest, piece =>
    if r = sep then piece :: splitRunes sep rest []
    else splitRunes sep rest (piece ++ [r])

/-- Go's `strings.Split(s, sep)` for a separator of one rune. -/
def Split (s : String) (sep : Char) : List String :=
  (splitRunes sep s.data []).map String.mk

/-- Go's `strings.Join`. -/
def Join (elems : List String) (sep : String) : String :=
  sep.intercalate elems

end strings

namespace telegram

open models strings

/-- The rule store of the struct `Bot` of `internal/telegram/bot.go`: the map
`userAlerts`, keyed by user id. -/
structure Bot where
  userAlerts : AList (fun _ : Int => UserAlert)

/-- One call of `sendMessage`: the chat and the text handed to the Telegram
API. -/
structure Sent where
  chatID : Int
  text : String
deriving DecidableEq, Repr

/-- `formatAlertMessage`; `percent c` is the rendering by `%.1f` of the
floating-point product `c * 100`. -/
def formatAlertMessage (percent : Rat → String) (article : models.CategorizedArticle) : String :=
  "🚨 News Alert\n\n📰 " ++ article.Article.Title
    ++ "\n\n📂 Category: " ++ article.Article.Category
    ++ "\n🏷️ Tags: " ++ Join article.Article.Tags ", "
    ++ "\n😊 Sentiment: " ++ article.Article.Sentiment
    ++ "\n📊 Confidence: " ++ percent article.Confidence ++ "%"
    ++ "\n\n📝 Summary: " ++ article.Article.Summary
    ++ "\n\n🔗 Read more: " ++ article.Article.URL
    ++ "\n\nSource: " ++ article.Article.Source

/-- One iteration of the loop of `SendAlert` on a stored rule: `sent` lists
the calls of `sendMessage` made so far. -/
def sendAlertStep (u : unicode.Tables) (percent : Rat → String)
    (article : models.CategorizedArticle) (sent : List Sent) (alert : UserAlert) : List Sent :=
  if !alert.Enabled then sent
  else if matchesAlert u article alert then
    sent ++ [{ chatID := alert.ChatID, text := formatAlertMessage percent article }]
  else sent

/-- `SendAlert`: range over the stored rules, in the order in which the map
yields them, and return the calls of `sendMessage` in order. -/
def SendAlert (u : unicode.Tables) (percent : Rat → String) (b : Bot)
    (article : models.CategorizedArticle) : List Sent :=
  b.userAlerts.entries.foldl (fun sent e => sendAlertStep u percent article sent e.2) []

/-- One iteration of the loop of `handleAlertCommand` on a field `part` of the
command. -/
def alertOption (alert : UserAlert) (part : String) : UserAlert :=
  if Contains part "=" then
    match SplitN part '=' 2 with
    | [key, value] =>
      if key = "category" then { alert with Categories := alert.Categories ++ [value] }
      else if key = "keywords" then { alert with Keywords := alert.Keywords ++ Split value ',' }
      else if key = "tags" then { alert with Tags := alert.Tags ++ Split value ',' }
      else alert
    | _ => alert
  else alert

/-- `handleAlertCommand`: the store after the command and the calls of
`sendMessage` it makes. -/
def handleAlertCommand (whiteSpace : Char → Bool) (b : Bot) (userID chatID : Int) (text : String) :
    Bot × List Sent :=
  let parts := Fields whiteSpace text
  if parts.length < 3 then
    (b, [{ chatID := chatID,
           text := "Invalid alert format. Use: /alert set category=politics keywords=bitcoin,crypto" }])
  else
    let alert := (parts.drop 2).foldl alertOption
      { UserID := userID, ChatID := chatID, Keywords := [], Categories := [], Tags := [],
        Enabled := true }
    ({ userAlerts := b.userAlerts.insert userID alert },
      [{ chatID := chatID,
         text := "Alert configured! 🎯\n\nCategories: " ++ fmt.sliceV alert.Categories
           ++ "\nKeywords: " ++ fmt.sliceV alert.Keywords
           ++ "\nTags: " ++ fmt.sliceV alert.Tags }])

end telegram

namespace sources

open models

/-- An element of the field `Suggestions` of `TreeNewsMessage`. -/
structure Suggestion where
  Coin : String
deriving DecidableEq, Repr

/-- The struct `TreeNewsMessage` of `internal/sources/treenews.go`, without
the field `Info`, which the code never reads. -/
structure TreeNewsMessage where
  ID : String
  Title : String
  Source : String
  URL : String
  RawTime : Int
  Suggestions : List Suggestion
deriving DecidableEq, Repr

/-- Go's `time.Unix(sec, nsec)` on the time line whose origin is the zero
`Time`: the Unix epoch lies 62135596800 seconds after it. -/
def timeUnix (sec nsec : Int) : Int :=
  (62135596800 + sec) * 1000000000 + nsec

/-- `generateHash`: the hexadecimal rendering of the SHA-256 digest of the
content, the digest function of Go's `crypto/sha256` being `sum256hex`. -/
def generateHash (sum256hex : String → String) (content : String) : String :=
  sum256hex content

/-- The body of the loop of `TreeNewsClient.FetchArticles` after the test of
the limit: the article built from one message. -/
def treeNewsArticle (sum256hex : String → String) (msg : TreeNewsMessage) : Article :=
  let publishedAt := timeUnix (msg.RawTime.tdiv 1000) (msg.RawTime.tmod 1000 * 1000000)
  let coins := msg.Suggestions.map (fun s => s.Coin)
  let metadata :=
    if coins.length > 0 then [("source", msg.Source), ("suggested_coins", fmt.sliceV coins)]
    else [("source", msg.Source)]
  { ID := msg.ID, Title := msg.Title, Content := msg.Title, URL := msg.URL,
    Source := "treenews", PublishedAt := publishedAt,
    Hash := generateHash sum256hex msg.Title, Category := "", Tags := [], Sentiment := "",
    Summary := "", Metadata := metadata }

/-- The loop of `TreeNewsClient.FetchArticles` over the decoded messages, with
its `break` once `len(articles) >= limit`. -/
def treeNewsLoop (sum256hex : String → String) (limit : Int) :
    List TreeNewsMessage → List Article → List Article
  | [], articles => articles
  | msg :: rest, articles =>
    if (articles.length : Int) ≥ limit then articles
    else treeNewsLoop sum256hex limit rest (articles ++ [treeNewsArticle sum256hex msg])

/-- What the HTTP exchange of `FetchArticles` comes to: building or sending
the request fails, or an answer arrives with a status code and a body that
decodes to a list of messages or fails to decode. -/
inductive Exchange where
  | failed (err : String)
  | answered (statusCode : Int) (body : Except String (List TreeNewsMessage))

/-- `TreeNewsClient.FetchArticles`. -/
def FetchArticles (sum256hex : String → String) (exchange : Exchange) (limit : Int) :
    Except String (List Article) :=
  match exchange with
  | .failed err => .error err
  | .answered statusCode body =>
    if statusCode ≠ 200 then .error ("treenews returned status " ++ toString statusCode)
    else
      match body with
      | .error err => .error err
      | .ok messages => .ok (treeNewsLoop sum256hex limit messages [])

end sources

namespace sample

open models cache

/-- Twenty-four hours, the retention that `main` passes to `cache.New`. -/
def day : Int := 24 * 3600 * 1000000000

/-- An item as the NewsAPI source builds it. -/
def fromNewsAPI : Article :=
  { Article.zero with
    ID := "newsapi_https://n.example/1", Title := "Bitcoin rallies", Content := "Bitcoin is up",
    URL := "https://n.example/1", Source := "newsapi", Hash := "h" }

/-- An item of another source with the same fingerprint. -/
def fromTreeNews : Article :=
  { Article.zero with
    ID := "t1", Title := "Bitcoin rallies", Content := "Bitcoin rallies",
    URL := "https://t.example/1", Source := "treenews", Hash := "h" }

/-- An item with another fingerprint. -/
def other : Article :=
  { Article.zero with
    ID := "t2", Title := "Rates unchanged", Content := "Rates unchanged",
    URL := "https://t.example/2", Source := "treenews", Hash := "g" }

/-- A clock that advances by one nanosecond per reading. -/
def clock (k : Nat) : Int := 1000 + k

/-- An answer entry of the classifier for `fromNewsAPI`. -/
def answer : ai.CategorizedArticle :=
  { ID := "newsapi_https://n.example/1", Category := "cryptocurrency", Tags := ["bitcoin"],
    Sentiment := "positive", Summary := "Bitcoin went up.", Confidence := 1 }

/-- An answer entry whose id no fetched item carries. -/
def strayAnswer : ai.CategorizedArticle :=
  { ID := "no-such-id", Category := "finance", Tags := [],
    Sentiment := "neutral", Summary := "", Confidence := 1 }

/-- Case tables that leave every rune above ASCII alone and relate no two
runes; the samples are ASCII, for which the tables are not consulted. -/
def tables : unicode.Tables :=
  { lower := fun r => r, foldOrbit := fun _ _ => false }

/-- An enriched item with the given category, title and body. -/
def enriched (category title content : String) : models.CategorizedArticle :=
  { Article := { Article.zero with Category := category, Title := title, Content := content },
    Confidence := 1, ProcessedAt := 0 }

/-- A rule of chat 7 with the given categories and keywords and no tags. -/
def rule (categories keywords : List String) : UserAlert :=
  { UserID := 7, ChatID := 7, Keywords := keywords, Categories := categories, Tags := [],
    Enabled := true }

/-- A rule of user 8 in chat 8 with no category, keyword or tag. -/
def emptyRule : UserAlert :=
  { UserID := 8, ChatID := 8, Keywords := [], Categories := [], Tags := [], Enabled := true }

/-- A disabled rule of user 9 in chat 9 for the category "technology". -/
def disabledRule : UserAlert :=
  { UserID := 9, ChatID := 9, Keywords := [], Categories := ["technology"], Tags := [],
    Enabled := false }

/-- A store with the rule of user 7 for "technology", the empty rule of user 8
and the disabled rule of user 9. -/
def bot : telegram.Bot :=
  { userAlerts :=
      ((((∅ : AList (fun _ : Int => UserAlert)).insert 7 (rule ["technology"] [])).insert 8
        emptyRule).insert 9 disabledRule) }

/-- Two decoded TreeNews messages. -/
def messages : List sources.TreeNewsMessage :=
  [{ ID := "m1", Title := "Bitcoin rallies", Source := "Twitter", URL := "https://t.example/1",
     RawTime := 1700000000123, Suggestions := [{ Coin := "BTC" }] },
   { ID := "m2", Title := "Rates unchanged", Source := "Blog", URL := "https://t.example/2",
     RawTime := 1700000001000, Suggestions := [] }]

/-- A stand-in for the digest that returns the content. -/
def digest (content : String) : String := content

/-- A rendering of the confidence that ignores it. -/
def percent (_ : Rat) : String := "100.0"

end sample

open models cache aggregator

/-! ## Lists built by appending in a loop -/

theorem foldl_append_if_eq_filter {α : Type} (p : α → Bool) (l acc : List α) :
    l.foldl (fun acc a => if p a then acc ++ [a] else acc) acc = acc ++ l.filter p := by
  induction l generalizing acc with
  | nil => simp
  | cons a l ih =>
    simp only [List.foldl_cons, ih, List.filter_cons]
    by_cases hp : p a = true <;> simp [hp]

theorem filterNewArticles_eq_filter (c : Cache) (articles : List Article) :
    filterNewArticles c articles = articles.filter (fun a => !HasArticle c a.Hash) := by
  unfold filterNewArticles
  rw [foldl_append_if_eq_filter (fun a : Article => !HasArticle c a.Hash)]
  simp

/-! ## The cache: lookups after each call -/

theorem hasArticle_eq_isSome (c : Cache) (h : String) :
    HasArticle c h = (c.articles.lookup h).isSome := by
  unfold HasArticle
  cases c.articles.lookup h <;> rfl

theorem hasArticle_addArticle (c : Cache) (a : Article) (now : Int) (h : String) :
    HasArticle (AddArticle c a now) h = (decide (h = a.Hash) || HasArticle c h) := by
  by_cases hh : h = a.Hash
  · subst hh
    simp [hasArticle_eq_isSome, AddArticle, AList.lookup_insert]
  · simp [hasArticle_eq_isSome, AddArticle, AList.lookup_insert_ne hh, hh]

theorem hasArticle_markProcessed (c : Cache) (hash : String) (now : Int) (h : String) :
    HasArticle (MarkProcessed c hash now) h = HasArticle c h := rfl

/-! ## C1 -/

/-- C1 (as the code behaves): a cache that lacks fingerprint `h` filters
nothing with that fingerprint out of a batch, so when the batch holds two
items `x`, `y` with fingerprint `h`, both stay, in order, in the batch handed
to the classifier, which has as many items with fingerprint `h` as the
fetched batch and at least two. -/
theorem filterNewArticles_keeps_duplicates_within_batch (c : Cache) (h : String)
    (x y : Article) (batch : List Article)
    (hc : HasArticle c h = false) (hx : x.Hash = h) (hy : y.Hash = h)
    (hsub : List.Sublist [x, y] batch) :
    List.Sublist [x, y] (filterNewArticles c batch) ∧
    (filterNewArticles c batch).countP (fun a => decide (a.Hash = h))
      = batch.countP (fun a => decide (a.Hash = h)) ∧
    2 ≤ (filterNewArticles c batch).countP (fun a => decide (a.Hash = h)) := by
  have hkeep : List.Sublist [x, y] (filterNewArticles c batch) := by
    have := hsub.filter (fun a => !HasArticle c a.Hash)
    rw [filterNewArticles_eq_filter]
    simpa [List.filter_cons, hx, hy, hc] using this
  have hcount : (filterNewArticles c batch).countP (fun a => decide (a.Hash = h))
      = batch.countP (fun a => decide (a.Hash = h)) := by
    rw [filterNewArticles_eq_filter, List.countP_filter]
    apply List.countP_congr
    intro a _
    by_cases ha : a.Hash = h
    · simp [ha, hc]
    · simp [ha]
  refine ⟨hkeep, hcount, ?_⟩
  have := hkeep.countP_le (fun a => decide (a.Hash = h))
  simpa [List.countP_cons, hx, hy] using this

theorem filterNewArticles_keeps_duplicates_within_batch_witness :
    List.Sublist [sample.fromNewsAPI, sample.fromTreeNews]
      (filterNewArticles (New sample.day) [sample.fromNewsAPI, sample.other, sample.fromTreeNews]) ∧
    (filterNewArticles (New sample.day)
        [sample.fromNewsAPI, sample.other, sample.fromTreeNews]).countP
        (fun a => decide (a.Hash = "h"))
      = [sample.fromNewsAPI, sample.other, sample.fromTreeNews].countP
        (fun a => decide (a.Hash = "h")) ∧
    2 ≤ (filterNewArticles (New sample.day)
        [sample.fromNewsAPI, sample.other, sample.fromTreeNews]).countP
        (fun a => decide (a.Hash = "h")) :=
  filterNewArticles_keeps_duplicates_within_batch (New sample.day) "h"
    sample.fromNewsAPI sample.fromTreeNews [sample.fromNewsAPI, sample.other, sample.fromTreeNews]
    (by decide) (by decide) (by decide) (by decide)

/-- C1 fails as stated: the cache is empty, the batch holds two items of two
different sources with the same fingerprint "h", and the filtered batch still
holds both of them, not exactly one. -/
theorem filterNewArticles_duplicate_counterexample :
    HasArticle (New sample.day) "h" = false ∧
    sample.fromNewsAPI.Hash = "h" ∧ sample.fromTreeNews.Hash = "h" ∧
    sample.fromNewsAPI.Source ≠ sample.fromTreeNews.Source ∧
    filterNewArticles (New sample.day) [sample.fromNewsAPI, sample.fromTreeNews]
      = [sample.fromNewsAPI, sample.fromTreeNews] ∧
    (filterNewArticles (New sample.day) [sample.fromNewsAPI, sample.fromTreeNews]).countP
      (fun a => decide (a.Hash = "h")) ≠ 1 := by
  decide

/-! ## The sweep -/

theorem cleanupStep_retention (cutoff : Int) (c : Cache) (e : Sigma fun _ : String => Int) :
    (cleanupStep cutoff c e).retention = c.retention := by
  unfold cleanupStep
  split <;> rfl

theorem cleanupStep_articles_lookup (cutoff : Int) (c : Cache) (e : Sigma fun _ : String => Int)
    (h : String) :
    (cleanupStep cutoff c e).articles.lookup h
      = if e.1 = h ∧ e.2 < cutoff then none else c.articles.lookup h := by
  unfold cleanupStep
  by_cases hlt : e.2 < cutoff
  · by_cases hk : e.1 = h
    · subst hk
      simp [hlt, AList.lookup_erase]
    · have hk2 : h ≠ e.1 := fun hh => hk hh.symm
      simp [hlt, hk, AList.lookup_erase_ne hk2]
  · simp [hlt]

theorem cleanupStep_processed_lookup (cutoff : Int) (c : Cache) (e : Sigma fun _ : String => Int)
    (h : String) :
    (cleanupStep cutoff c e).processed.lookup h
      = if e.1 = h ∧ e.2 < cutoff then none else c.processed.lookup h := by
  unfold cleanupStep
  by_cases hlt : e.2 < cutoff
  · by_cases hk : e.1 = h
    · subst hk
      simp [hlt, AList.lookup_erase]
    · have hk2 : h ≠ e.1 := fun hh => hk hh.symm
      simp [hlt, hk, AList.lookup_erase_ne hk2]
  · simp [hlt]

theorem foldl_cleanupStep_lookup (cutoff : Int) (h : String)
    (es : List (Sigma fun _ : String => Int)) (c : Cache) :
    ((∃ e ∈ es, e.1 = h ∧ e.2 < cutoff) →
      (es.foldl (cleanupStep cutoff) c).articles.lookup h = none ∧
      (es.foldl (cleanupStep cutoff) c).processed.lookup h = none) ∧
    ((¬ ∃ e ∈ es, e.1 = h ∧ e.2 < cutoff) →
      (es.foldl (cleanupStep cutoff) c).articles.lookup h = c.articles.lookup h ∧
      (es.foldl (cleanupStep cutoff) c).processed.lookup h = c.processed.lookup h) ∧
    (es.foldl (cleanupStep cutoff) c).retention = c.retention := by
  induction es generalizing c with
  | nil => simp
  | cons e es ih =>
    obtain ⟨ih1, ih2, ih3⟩ := ih (cleanupStep cutoff c e)
    simp only [List.foldl_cons]
    refine ⟨?_, ?_, ?_⟩
    · intro hex
      by_cases hrest : ∃ e' ∈ es, e'.1 = h ∧ e'.2 < cutoff
      · exact ih1 hrest
      · obtain ⟨e', hmem, hk, hlt⟩ := hex
        have he : e' = e := by
          rcases List.mem_cons.mp hmem with heq | hin
          · exact heq
          · exact absurd ⟨e', hin, hk, hlt⟩ hrest
        subst he
        obtain ⟨ha, hp⟩ := ih2 hrest
        rw [ha, hp, cleanupStep_articles_lookup, cleanupStep_processed_lookup]
        simp [hk, hlt]
    · intro hno
      have hrest : ¬ ∃ e' ∈ es, e'.1 = h ∧ e'.2 < cutoff := by
        rintro ⟨e', hin, hk, hlt⟩
        exact hno ⟨e', List.mem_cons_of_mem _ hin, hk, hlt⟩
      have hhead : ¬ (e.1 = h ∧ e.2 < cutoff) := by
        rintro ⟨hk, hlt⟩
        exact hno ⟨e, List.mem_cons_self _ _, hk, hlt⟩
      obtain ⟨ha, hp⟩ := ih2 hrest
      rw [ha, hp, cleanupStep_articles_lookup, cleanupStep_processed_lookup]
      simp [hhead]
    · rw [ih3, cleanupStep_retention]

theorem expired_iff (c : Cache) (now : Int) (h : String) :
    expired c now h = true ↔
      ∃ e ∈ c.processed.entries, e.1 = h ∧ e.2 < now + negDuration c.retention := by
  unfold expired
  constructor
  · intro hexp
    cases hl : c.processed.lookup h with
    | none => simp [hl] at hexp
    | some t =>
      simp [hl] at hexp
      have hmem : (Sigma.mk h t : Sigma fun _ : String => Int) ∈ c.processed.entries :=
        AList.mem_lookup_iff.mp (by simp [hl])
      exact ⟨⟨h, t⟩, hmem, rfl, hexp⟩
  · rintro ⟨⟨k, t⟩, hmem, hk, hlt⟩
    simp only at hk hlt
    subst hk
    have hl : c.processed.lookup k = some t := by
      have := AList.mem_lookup_iff.mpr hmem
      simpa using this
    simp [hl, hlt]

theorem performCleanup_articles_lookup (c : Cache) (now : Int) (h : String) :
    (performCleanup c now).articles.lookup h
      = if expired c now h then none else c.articles.lookup h := by
  obtain ⟨h1, h2, _⟩ :=
    foldl_cleanupStep_lookup (now + negDuration c.retention) h c.processed.entries c
  by_cases hexp : expired c now h = true
  · simp only [hexp, if_true]
    exact (h1 ((expired_iff c now h).mp hexp)).1
  · simp only [hexp]
    exact (h2 (fun hh => hexp ((expired_iff c now h).mpr hh))).1

theorem performCleanup_processed_lookup (c : Cache) (now : Int) (h : String) :
    (performCleanup c now).processed.lookup h
      = if expired c now h then none else c.processed.lookup h := by
  obtain ⟨h1, h2, _⟩ :=
    foldl_cleanupStep_lookup (now + negDuration c.retention) h c.processed.entries c
  by_cases hexp : expired c now h = true
  · simp only [hexp, if_true]
    exact (h1 ((expired_iff c now h).mp hexp)).2
  · simp only [hexp]
    exact (h2 (fun hh => hexp ((expired_iff c now h).mpr hh))).2

theorem performCleanup_retention (c : Cache) (now : Int) :
    (performCleanup c now).retention = c.retention :=
  (foldl_cleanupStep_lookup (now + negDuration c.retention) "" c.processed.entries c).2.2

theorem hasArticle_performCleanup (c : Cache) (now : Int) (h : String) :
    HasArticle (performCleanup c now) h = (!expired c now h && HasArticle c h) := by
  rw [hasArticle_eq_isSome, hasArticle_eq_isSome, performCleanup_articles_lookup]
  cases expired c now h <;> simp

theorem hasArticle_run_of_notSwept (h : String) (ops : List Op) (c : Cache)
    (hns : notSwept h c ops = true) (hhas : HasArticle c h = true) :
    HasArticle (run c ops) h = true := by
  induction ops generalizing c with
  | nil => simpa [run] using hhas
  | cons op ops ih =>
    cases op with
    | add article now =>
      have hns2 : notSwept h (AddArticle c article now) ops = true := by
        simpa [notSwept, Op.apply] using hns
      have := ih (AddArticle c article now) hns2 (by simp [hasArticle_addArticle, hhas])
      simpa [run, Op.apply] using this
    | mark hash now =>
      have hns2 : notSwept h (MarkProcessed c hash now) ops = true := by
        simpa [notSwept, Op.apply] using hns
      have := ih (MarkProcessed c hash now) hns2 (by simp [hasArticle_markProcessed, hhas])
      simpa [run, Op.apply] using this
    | cleanup now =>
      have hexp : expired c now h = false := by
        cases hx : expired c now h
        · rfl
        · simp [notSwept, hx] at hns
      have hns2 : notSwept h (performCleanup c now) ops = true := by
        simpa [notSwept, hexp] using hns
      have := ih (performCleanup c now) hns2 (by simp [hasArticle_performCleanup, hexp, hhas])
      simpa [run, Op.apply] using this

/-! ## C2 -/

/-- C2: for every cache and batch, `filterNewArticles` returns the items of the
batch whose `Hash` fails `HasArticle`, in their order in the batch; and once an
item `x` was added, after any further calls on the cache none of whose sweeps
finds the entry of `x.Hash` expired, no item with the fingerprint of `x` is in
the filtered result of a later batch. -/
theorem filterNewArticles_exact (c : Cache) (batch : List Article) :
    filterNewArticles c batch = batch.filter (fun a => !HasArticle c a.Hash) ∧
    ∀ (x : Article) (now : Int) (ops : List Op),
      notSwept x.Hash (AddArticle c x now) ops = true →
      ∀ y ∈ filterNewArticles (run (AddArticle c x now) ops) batch, y.Hash ≠ x.Hash := by
  refine ⟨filterNewArticles_eq_filter c batch, ?_⟩
  intro x now ops hns y hy hEq
  have hhas : HasArticle (run (AddArticle c x now) ops) x.Hash = true :=
    hasArticle_run_of_notSwept x.Hash ops _ hns (by simp [hasArticle_addArticle])
  rw [filterNewArticles_eq_filter, List.mem_filter] at hy
  rw [hEq, hhas] at hy
  simp at hy

theorem filterNewArticles_exact_witness :
    notSwept sample.fromNewsAPI.Hash (AddArticle (New sample.day) sample.fromNewsAPI 0)
        [Op.add sample.other 5, Op.cleanup sample.day, Op.mark "g" 7] = true ∧
    ∀ y ∈ filterNewArticles
        (run (AddArticle (New sample.day) sample.fromNewsAPI 0)
          [Op.add sample.other 5, Op.cleanup sample.day, Op.mark "g" 7])
        [sample.fromTreeNews, sample.other],
      y.Hash ≠ sample.fromNewsAPI.Hash :=
  ⟨by decide,
    (filterNewArticles_exact (New sample.day) [sample.fromTreeNews, sample.other]).2
      sample.fromNewsAPI 0 [Op.add sample.other 5, Op.cleanup sample.day, Op.mark "g" 7]
      (by decide)⟩

/-! ## C3 -/

/-- C3: right after `AddArticle(item)`, `HasArticle(item.Hash)` is true and
`GetArticle(item.Hash)` returns that item, whatever was stored under the
fingerprint before; for every other fingerprint, membership and the stored item
are as before the call. -/
theorem addArticle_then_has_and_get (c : Cache) (item : Article) (now : Int) :
    HasArticle (AddArticle c item now) item.Hash = true ∧
    GetArticle (AddArticle c item now) item.Hash = (item, true) ∧
    ∀ h : String, h ≠ item.Hash →
      HasArticle (AddArticle c item now) h = HasArticle c h ∧
      GetArticle (AddArticle c item now) h = GetArticle c h := by
  refine ⟨?_, ?_, ?_⟩
  · simp [hasArticle_addArticle]
  · simp [GetArticle, AddArticle, AList.lookup_insert]
  · intro h hne
    refine ⟨?_, ?_⟩
    · simp [hasArticle_addArticle, hne]
    · simp [GetArticle, AddArticle, AList.lookup_insert_ne hne]

theorem addArticle_then_has_and_get_witness :
    HasArticle (AddArticle (AddArticle (New sample.day) sample.fromNewsAPI 0) sample.fromTreeNews 4) "g"
      = HasArticle (AddArticle (New sample.day) sample.fromNewsAPI 0) "g" ∧
    GetArticle (AddArticle (AddArticle (New sample.day) sample.fromNewsAPI 0) sample.fromTreeNews 4) "g"
      = GetArticle (AddArticle (New sample.day) sample.fromNewsAPI 0) "g" :=
  (addArticle_then_has_and_get (AddArticle (New sample.day) sample.fromNewsAPI 0)
    sample.fromTreeNews 4).2.2 "g" (by decide)

/-! ## C4 -/

theorem negDuration_eq_neg (r : Int) (hlo : -(2 : Int) ^ 63 < r) (hhi : r < (2 : Int) ^ 63) :
    negDuration r = -r := by
  unfold negDuration wrapInt64
  norm_num at hlo hhi ⊢
  omega

theorem expired_iff_older (c : Cache) (now t : Int) (h : String)
    (hlo : -(2 : Int) ^ 63 < c.retention) (hhi : c.retention < (2 : Int) ^ 63)
    (ht : c.processed.lookup h = some t) :
    expired c now h = true ↔ now - t > c.retention := by
  unfold expired
  rw [ht, negDuration_eq_neg c.retention hlo hhi]
  simp only [decide_eq_true_eq]
  constructor <;> intro hh <;> omega

/-- C4 (as the code behaves): for every cache state, every sweep time `now` and
every retention `r` with `-2^63 < r < 2^63` nanoseconds (every `time.Duration`
but the least one), `performCleanup` removes the entry of a fingerprint with
processed-at time `t` if and only if `now - t > r`, and then removes its item
too; an entry that is not removed keeps its timestamp and its item; a
fingerprint without timestamp keeps its item. So with one second being `10^9`
nanoseconds, `t = now - r - 1s` is removed, `t = now - r + 1s` survives and
`t = now - r` survives. -/
theorem performCleanup_exact (c : Cache) (now : Int) (h : String)
    (hlo : -(2 : Int) ^ 63 < c.retention) (hhi : c.retention < (2 : Int) ^ 63) :
    (∀ t : Int, c.processed.lookup h = some t →
      ((performCleanup c now).processed.lookup h = none ↔ now - t > c.retention) ∧
      (now - t > c.retention → (performCleanup c now).articles.lookup h = none) ∧
      (¬ now - t > c.retention →
        (performCleanup c now).processed.lookup h = some t ∧
        (performCleanup c now).articles.lookup h = c.articles.lookup h) ∧
      (t = now - c.retention - 1000000000 →
        (performCleanup c now).processed.lookup h = none ∧
        (performCleanup c now).articles.lookup h = none) ∧
      (t = now - c.retention + 1000000000 ∨ t = now - c.retention →
        (performCleanup c now).processed.lookup h = some t ∧
        (performCleanup c now).articles.lookup h = c.articles.lookup h)) ∧
    (c.processed.lookup h = none →
      (performCleanup c now).processed.lookup h = none ∧
      (performCleanup c now).articles.lookup h = c.articles.lookup h) ∧
    (performCleanup c now).retention = c.retention := by
  refine ⟨?_, ?_, performCleanup_retention c now⟩
  · intro t ht
    have hiff := expired_iff_older c now t h hlo hhi ht
    have hgone : now - t > c.retention →
        (performCleanup c now).processed.lookup h = none ∧
        (performCleanup c now).articles.lookup h = none := by
      intro hold
      have hexp := hiff.mpr hold
      simp [performCleanup_processed_lookup, performCleanup_articles_lookup, hexp]
    have hkept : ¬ now - t > c.retention →
        (performCleanup c now).processed.lookup h = some t ∧
        (performCleanup c now).articles.lookup h = c.articles.lookup h := by
      intro hyoung
      have hexp : expired c now h = false := by
        cases hx : expired c now h
        · rfl
        · exact absurd (hiff.mp hx) hyoung
      simp [performCleanup_processed_lookup, performCleanup_articles_lookup, hexp, ht]
    refine ⟨?_, fun hold => (hgone hold).2, hkept, ?_, ?_⟩
    · constructor
      · intro hnone
        by_contra hyoung
        rw [(hkept hyoung).1] at hnone
        exact absurd hnone (by simp)
      · intro hold
        exact (hgone hold).1
    · intro hEq
      exact hgone (by omega)
    · intro hEq
      exact hkept (by omega)
  · intro hnone
    have hexp : expired c now h = false := by
      unfold expired
      rw [hnone]
    simp [performCleanup_processed_lookup, performCleanup_articles_lookup, hexp, hnone]

theorem performCleanup_exact_witness :
    ((performCleanup (AddArticle (AddArticle (New sample.day) sample.fromNewsAPI 0) sample.other 1)
        (sample.day + 1)).processed.lookup "h" = none ↔
      sample.day + 1 - 0
        > (AddArticle (AddArticle (New sample.day) sample.fromNewsAPI 0) sample.other 1).retention) ∧
    (¬ sample.day + 1 - 1
        > (AddArticle (AddArticle (New sample.day) sample.fromNewsAPI 0) sample.other 1).retention) ∧
    (performCleanup (AddArticle (AddArticle (New sample.day) sample.fromNewsAPI 0) sample.other 1)
        (sample.day + 1)).processed.lookup "g" = some 1 :=
  ⟨((performCleanup_exact
        (AddArticle (AddArticle (New sample.day) sample.fromNewsAPI 0) sample.other 1)
        (sample.day + 1) "h" (by decide) (by decide)).1 0 (by decide)).1,
    by decide,
    (((performCleanup_exact
        (AddArticle (AddArticle (New sample.day) sample.fromNewsAPI 0) sample.other 1)
        (sample.day + 1) "g" (by decide) (by decide)).1 1 (by decide)).2.2.1 (by decide)).1⟩

/-- C4 fails as stated at the least duration: with retention `-2^63` the entry
stamped at time `0` is older than the retention at sweep time `0`
(`0 - 0 > -2^63`), yet the sweep keeps its timestamp and its item, the negated
retention having wrapped around. -/
theorem performCleanup_least_retention_counterexample :
    (AddArticle (New (-(2 : Int) ^ 63)) sample.other 0).processed.lookup "g" = some 0 ∧
    (0 : Int) - 0 > (AddArticle (New (-(2 : Int) ^ 63)) sample.other 0).retention ∧
    (performCleanup (AddArticle (New (-(2 : Int) ^ 63)) sample.other 0) 0).processed.lookup "g"
      = some 0 ∧
    HasArticle (performCleanup (AddArticle (New (-(2 : Int) ^ 63)) sample.other 0) 0) "g" = true := by
  decide

/-! ## C5 -/

/-- C5 (as the code behaves): for a fingerprint `h` with no stored item and no
timestamp, `MarkProcessed(h)` leaves the stored items, `total_articles` and the
timestamp of every other fingerprint as they were, and records the current
time as processed-at of `h`, so the `processed` count of `Stats` grows by
one. -/
theorem markProcessed_absent_adds_timestamp (c : Cache) (h : String) (now : Int)
    (hart : c.articles.lookup h = none) (hproc : c.processed.lookup h = none) :
    (MarkProcessed c h now).articles = c.articles ∧
    HasArticle (MarkProcessed c h now) h = false ∧
    (Stats (MarkProcessed c h now)).total_articles = (Stats c).total_articles ∧
    (∀ k : String, k ≠ h →
      (MarkProcessed c h now).processed.lookup k = c.processed.lookup k) ∧
    (MarkProcessed c h now).processed.lookup h = some now ∧
    (Stats (MarkProcessed c h now)).processed = (Stats c).processed + 1 := by
  refine ⟨rfl, ?_, rfl, ?_, ?_, ?_⟩
  · rw [hasArticle_markProcessed, hasArticle_eq_isSome, hart]
    rfl
  · intro k hk
    simp [MarkProcessed, AList.lookup_insert_ne hk]
  · simp [MarkProcessed, AList.lookup_insert]
  · have hnot : h ∉ c.processed := AList.lookup_eq_none.mp hproc
    show (c.processed.insert h now).entries.length = c.processed.entries.length + 1
    rw [AList.insert_entries_of_neg hnot]
    rfl

theorem markProcessed_absent_adds_timestamp_witness :
    (Stats (MarkProcessed (AddArticle (New sample.day) sample.other 0) "h" 3)).processed
      = (Stats (AddArticle (New sample.day) sample.other 0)).processed + 1 :=
  (markProcessed_absent_adds_timestamp (AddArticle (New sample.day) sample.other 0) "h" 3
    (by decide) (by decide)).2.2.2.2.2

/-- C5 fails as stated: the fingerprint "h" has no entry in the new cache, and
`MarkProcessed` on it stores a timestamp and moves the `processed` count of
`Stats` from 0 to 1. -/
theorem markProcessed_absent_counterexample :
    HasArticle (New sample.day) "h" = false ∧
    (New sample.day).processed.lookup "h" = none ∧
    (MarkProcessed (New sample.day) "h" 3).processed.lookup "h" = some 3 ∧
    (Stats (New sample.day)).processed = 0 ∧
    (Stats (MarkProcessed (New sample.day) "h" 3)).processed = 1 := by
  decide

/-! ## The classifier adapter and the cycle -/

theorem categorizeLoop_articles (articles : List Article) (clock : Nat → Int) (tick : Nat)
    (entries : List ai.CategorizedArticle) (acc : List models.CategorizedArticle) :
    (ai.categorizeLoop articles clock tick entries acc).map (fun r => (r.Article, r.Confidence))
      = acc.map (fun r => (r.Article, r.Confidence))
        ++ entries.map (fun e => (ai.findArticleByID articles e.ID, e.Confidence)) := by
  induction entries generalizing tick acc with
  | nil => simp [ai.categorizeLoop]
  | cons e entries ih => simp [ai.categorizeLoop, ih]

theorem findArticleByID_mem_or_zero (articles : List Article) (id : String) :
    ai.findArticleByID articles id ∈ articles ∨ ai.findArticleByID articles id = Article.zero := by
  induction articles with
  | nil => exact Or.inr rfl
  | cons a rest ih =>
    unfold ai.findArticleByID
    by_cases h : a.ID = id
    · simp [h]
    · rcases ih with hmem | hzero
      · exact Or.inl (by simp [h, hmem])
      · exact Or.inr (by simp [h, hzero])

/-! ## C6 -/

/-- C6: if `CategorizeArticles` returns an error on the filtered batch, then
`processNewsBatch` returns an error, hands no article to `SendAlert` and leaves
the cache as it was; so when the sources return the same batch in the next
cycle, `filterNewArticles` gives the same result again, with every item of the
failed batch in it. -/
theorem processNewsBatch_classifier_failure (c : Cache)
    (results : List (Except String (List Article))) (completion : ai.Completion)
    (clock : Nat → Int) (e : String)
    (hfail : ai.CategorizeArticles (filterNewArticles c (mergeFetched results)) completion clock
      = Except.error e) :
    (processNewsBatch c results completion clock).err
      = some ("failed to categorize articles: " ++ e) ∧
    (processNewsBatch c results completion clock).cache = c ∧
    (processNewsBatch c results completion clock).alerts = [] ∧
    ∀ later : List (Except String (List Article)), mergeFetched later = mergeFetched results →
      filterNewArticles (processNewsBatch c results completion clock).cache (mergeFetched later)
        = filterNewArticles c (mergeFetched results) ∧
      ∀ x ∈ filterNewArticles c (mergeFetched results),
        x ∈ filterNewArticles (processNewsBatch c results completion clock).cache
          (mergeFetched later) := by
  have hne : ¬ (filterNewArticles c (mergeFetched results)).length = 0 := by
    intro h0
    simp [ai.CategorizeArticles, h0] at hfail
  have hcache : (processNewsBatch c results completion clock).cache = c := by
    simp only [processNewsBatch, hne, if_false, hfail]
  refine ⟨?_, hcache, ?_, ?_⟩
  · simp only [processNewsBatch, hne, if_false, hfail]
  · simp only [processNewsBatch, hne, if_false, hfail]
  · intro later hsame
    rw [hcache, hsame]
    exact ⟨rfl, fun x hx => hx⟩

theorem processNewsBatch_classifier_failure_witness :
    (processNewsBatch (New sample.day) [Except.ok [sample.fromNewsAPI], Except.error "timeout"]
        (ai.Completion.requestFailed "503") sample.clock).err
      = some ("failed to categorize articles: " ++ ("openai request failed: " ++ "503")) ∧
    (processNewsBatch (New sample.day) [Except.ok [sample.fromNewsAPI], Except.error "timeout"]
        (ai.Completion.requestFailed "503") sample.clock).alerts = [] ∧
    sample.fromNewsAPI ∈ filterNewArticles
      (processNewsBatch (New sample.day) [Except.ok [sample.fromNewsAPI], Except.error "timeout"]
        (ai.Completion.requestFailed "503") sample.clock).cache
      (mergeFetched [Except.error "timeout", Except.ok [sample.fromNewsAPI]]) :=
  have hw := processNewsBatch_classifier_failure (New sample.day)
    [Except.ok [sample.fromNewsAPI], Except.error "timeout"]
    (ai.Completion.requestFailed "503") sample.clock ("openai request failed: " ++ "503") rfl
  ⟨hw.1, hw.2.2.1,
    (hw.2.2.2 [Except.error "timeout", Except.ok [sample.fromNewsAPI]] rfl).2
      sample.fromNewsAPI (by decide)⟩

/-! ## C7 -/

/-- C7 at a concrete input: the classifier answers for the one input item
(same id) with category "cryptocurrency", tag "bitcoin", sentiment "positive"
and a summary; the `CategorizedArticle` built by `CategorizeArticles` embeds the
input item as it came in, with empty category, tags, sentiment and summary, and
carries over the confidence only. -/
theorem categorizeArticles_drops_enrichment :
    sample.answer.ID = sample.fromNewsAPI.ID ∧
    sample.answer.Category = "cryptocurrency" ∧
    ai.CategorizeArticles [sample.fromNewsAPI]
        (ai.Completion.parsed { Articles := [sample.answer] }) sample.clock
      = Except.ok [{ Article := sample.fromNewsAPI,
                     Confidence := sample.answer.Confidence,
                     ProcessedAt := sample.clock 0 }] ∧
    sample.fromNewsAPI.Category = "" ∧ sample.fromNewsAPI.Tags = [] ∧
    sample.fromNewsAPI.Sentiment = "" ∧ sample.fromNewsAPI.Summary = "" :=
  ⟨by decide, by decide, rfl, by decide, by decide, by decide, by decide⟩

/-! ## C8 -/

/-- C8 at a concrete input: the classifier answers with an id that no input
item carries; `CategorizeArticles` returns the zero `Article` for it, which is
not in the input batch, and the cycle stores it under the empty fingerprint,
which is the fingerprint of no item of the filtered batch. -/
theorem categorizeArticles_stray_id_yields_zero_article :
    (∀ a ∈ [sample.fromNewsAPI], a.ID ≠ sample.strayAnswer.ID) ∧
    ai.CategorizeArticles [sample.fromNewsAPI]
        (ai.Completion.parsed { Articles := [sample.strayAnswer] }) sample.clock
      = Except.ok [{ Article := Article.zero,
                     Confidence := sample.strayAnswer.Confidence,
                     ProcessedAt := sample.clock 0 }] ∧
    Article.zero ∉ [sample.fromNewsAPI] ∧
    filterNewArticles (New sample.day) (mergeFetched [Except.ok [sample.fromNewsAPI]])
      = [sample.fromNewsAPI] ∧
    HasArticle
      (processNewsBatch (New sample.day) [Except.ok [sample.fromNewsAPI]]
        (ai.Completion.parsed { Articles := [sample.strayAnswer] }) sample.clock).cache ""
      = true ∧
    (∀ a ∈ filterNewArticles (New sample.day) (mergeFetched [Except.ok [sample.fromNewsAPI]]),
      a.Hash ≠ "") :=
  ⟨by decide, rfl, by decide, by decide, by decide, by decide⟩

/-! ## Go strings -/

theorem containsRunes_iff_contiguous (s substr : List Char) :
    strings.containsRunes s substr = true ↔ substr <:+: s := by
  induction s with
  | nil => simp [strings.containsRunes]
  | cons r rest ih =>
    rw [strings.containsRunes, Bool.or_eq_true, ih, List.infix_cons_iff]
    simp

theorem contains_toLower_of_contains_content (u : unicode.Tables) (title content word : String)
    (h : strings.Contains content word = true) :
    strings.Contains (strings.ToLower u (title ++ " " ++ content)) (strings.ToLower u word)
      = true := by
  unfold strings.Contains at h ⊢
  rw [containsRunes_iff_contiguous] at h ⊢
  have hmap := h.map (unicode.ToLower u)
  simp only [strings.ToLower, String.data_append, List.map_append]
  exact hmap.trans (List.suffix_append _ _).isInfix

theorem char_eq_iff_toNat_eq (a b : Char) : a = b ↔ a.toNat = b.toNat := by
  constructor
  · intro h
    rw [h]
  · intro h
    rw [← Char.ofNat_toNat a, ← Char.ofNat_toNat b, h]

theorem toNat_ofNat_of_lt (k : Nat) (hk : k < 0xd800) : (Char.ofNat k).toNat = k := by
  unfold Char.ofNat
  rw [dif_pos (Or.inl hk)]
  rfl

theorem toNat_toLower_ascii (u : unicode.Tables) (r : Char) (hr : r.toNat < 0x80) :
    (unicode.ToLower u r).toNat
      = if 65 ≤ r.toNat ∧ r.toNat ≤ 90 then r.toNat + 32 else r.toNat := by
  unfold unicode.ToLower
  have h1 : r.toNat ≤ 0x7F := by omega
  have hA : 'A'.toNat = 65 := rfl
  have hZ : 'Z'.toNat = 90 := rfl
  have ha : 'a'.toNat = 97 := rfl
  simp only [h1, if_true, hA, hZ, ha]
  split
  · rw [toNat_ofNat_of_lt]
    omega
  · rfl

theorem equalFoldRune_ascii (u : unicode.Tables) (a b : Char)
    (ha : a.toNat < 0x80) (hb : b.toNat < 0x80) :
    strings.equalFoldRune u a b = true ↔ unicode.ToLower u a = unicode.ToLower u b := by
  rw [char_eq_iff_toNat_eq (unicode.ToLower u a), toNat_toLower_ascii u a ha,
    toNat_toLower_ascii u b hb]
  unfold strings.equalFoldRune
  have hA : 'A'.toNat = 65 := rfl
  have hsmall : 'a'.toNat = 97 := rfl
  have hZ : 'Z'.toNat = 90 := rfl
  simp only [hA, hsmall, hZ, char_eq_iff_toNat_eq b a]
  split_ifs <;> simp <;> omega

theorem equalFoldRunes_ascii (u : unicode.Tables) (s t : List Char)
    (hs : ∀ r ∈ s, r.toNat < 0x80) (ht : ∀ r ∈ t, r.toNat < 0x80) :
    strings.equalFoldRunes u s t = true
      ↔ s.map (unicode.ToLower u) = t.map (unicode.ToLower u) := by
  induction s generalizing t with
  | nil =>
    cases t with
    | nil => simp [strings.equalFoldRunes]
    | cons b t => simp [strings.equalFoldRunes]
  | cons a s ih =>
    cases t with
    | nil => simp [strings.equalFoldRunes]
    | cons b t =>
      have hrune := equalFoldRune_ascii u a b (hs a (List.mem_cons_self _ _))
        (ht b (List.mem_cons_self _ _))
      have hrest := ih t (fun r hr => hs r (List.mem_cons_of_mem _ hr))
        (fun r hr => ht r (List.mem_cons_of_mem _ hr))
      by_cases hfold : strings.equalFoldRune u a b = true
      · have hlow := hrune.mp hfold
        simp [strings.equalFoldRunes, hfold, hrest, hlow]
      · have hlow : ¬ unicode.ToLower u a = unicode.ToLower u b := fun h => hfold (hrune.mpr h)
        simp [strings.equalFoldRunes, hfold, hlow]

theorem equalFold_ascii (u : unicode.Tables) (s t : String)
    (hs : strings.isASCII s = true) (ht : strings.isASCII t = true) :
    strings.EqualFold u s t = true ↔ strings.ToLower u s = strings.ToLower u t := by
  unfold strings.isASCII at hs ht
  rw [List.all_eq_true] at hs ht
  unfold strings.EqualFold strings.ToLower
  rw [equalFoldRunes_ascii u s.data t.data (fun r hr => by simpa using hs r hr)
    (fun r hr => by simpa using ht r hr)]
  constructor
  · intro h
    rw [h]
  · intro h
    exact congrArg String.data h

/-! ## C9 -/

/-- C9: for a rule without keywords and without tags, `matchesAlert` is true
if and only if `strings.EqualFold` (equality under case folding) holds between
the category of the item and one of the categories of the rule; when these
categories are ASCII, that is: the item's category and the rule's category are
the same string once both are lower-cased. Whatever the Unicode tables, the
rule with categories `["technology"]` matches every item of category
"Technology" or "technology" and matches no item of category "finance" or
"technologies". -/
theorem matchesAlert_category_only (u : unicode.Tables) (article : models.CategorizedArticle) :
    (∀ alert : UserAlert, alert.Keywords = [] → alert.Tags = [] →
      (telegram.matchesAlert u article alert = true ↔
        ∃ category ∈ alert.Categories,
          strings.EqualFold u article.Article.Category category = true)) ∧
    (∀ alert : UserAlert, alert.Keywords = [] → alert.Tags = [] →
      strings.isASCII article.Article.Category = true →
      (∀ category ∈ alert.Categories, strings.isASCII category = true) →
      (telegram.matchesAlert u article alert = true ↔
        ∃ category ∈ alert.Categories,
          strings.ToLower u article.Article.Category = strings.ToLower u category)) ∧
    (∀ alert : UserAlert, alert.Keywords = [] → alert.Tags = [] →
      alert.Categories = ["technology"] →
      (article.Article.Category = "Technology" ∨ article.Article.Category = "technology" →
        telegram.matchesAlert u article alert = true) ∧
      (article.Article.Category = "finance" ∨ article.Article.Category = "technologies" →
        telegram.matchesAlert u article alert = false)) := by
  have hiff : ∀ alert : UserAlert, alert.Keywords = [] → alert.Tags = [] →
      (telegram.matchesAlert u article alert = true ↔
        ∃ category ∈ alert.Categories,
          strings.EqualFold u article.Article.Category category = true) := by
    intro alert hk ht
    simp [telegram.matchesAlert, hk, ht]
  refine ⟨hiff, ?_, ?_⟩
  · intro alert hk ht hitem hrule
    rw [hiff alert hk ht]
    constructor
    · rintro ⟨category, hmem, hfold⟩
      exact ⟨category, hmem, (equalFold_ascii u _ _ hitem (hrule category hmem)).mp hfold⟩
    · rintro ⟨category, hmem, hlow⟩
      exact ⟨category, hmem, (equalFold_ascii u _ _ hitem (hrule category hmem)).mpr hlow⟩
  intro alert hk ht hc
  refine ⟨?_, ?_⟩
  · intro hcat
    rw [hiff alert hk ht, hc]
    refine ⟨"technology", List.mem_singleton.mpr rfl, ?_⟩
    rcases hcat with h | h <;> rw [h] <;> rfl
  · intro hcat
    have hno : ¬ telegram.matchesAlert u article alert = true := by
      rw [hiff alert hk ht, hc]
      rintro ⟨category, hmem, hfold⟩
      rw [List.mem_singleton.mp hmem] at hfold
      have hfin : strings.EqualFold u "finance" "technology" = false := rfl
      have hies : strings.EqualFold u "technologies" "technology" = false := rfl
      rcases hcat with h | h
      · rw [h, hfin] at hfold
        exact Bool.false_ne_true hfold
      · rw [h, hies] at hfold
        exact Bool.false_ne_true hfold
    simpa using hno

theorem matchesAlert_category_only_witness :
    (telegram.matchesAlert sample.tables (sample.enriched "Technology" "Chips" "New chips")
        (sample.rule ["technology"] []) = true ↔
      ∃ category ∈ (sample.rule ["technology"] []).Categories,
        strings.EqualFold sample.tables
          (sample.enriched "Technology" "Chips" "New chips").Article.Category category = true) ∧
    telegram.matchesAlert sample.tables (sample.enriched "Technology" "Chips" "New chips")
        (sample.rule ["technology"] []) = true :=
  ⟨(matchesAlert_category_only sample.tables (sample.enriched "Technology" "Chips" "New chips")).1
      (sample.rule ["technology"] []) rfl rfl,
    ((matchesAlert_category_only sample.tables (sample.enriched "Technology" "Chips" "New chips")).2.2
      (sample.rule ["technology"] []) rfl rfl rfl).1 (Or.inl rfl)⟩

/-! ## C10 -/

/-- C10 (as the code behaves): for a rule without categories and without tags,
`matchesAlert` is true if and only if some keyword of the rule, lower-cased,
is a substring of the lower-cased text made of the title, one space and the
body. A rule with keywords `["bitcoin"]` matches every item whose body
contains "Bitcoin". -/
theorem matchesAlert_keyword_clause (u : unicode.Tables) (article : models.CategorizedArticle) :
    (∀ alert : UserAlert, alert.Categories = [] → alert.Tags = [] →
      (telegram.matchesAlert u article alert = true ↔
        ∃ keyword ∈ alert.Keywords,
          strings.Contains
            (strings.ToLower u (article.Article.Title ++ " " ++ article.Article.Content))
            (strings.ToLower u keyword) = true)) ∧
    (∀ alert : UserAlert, alert.Keywords = ["bitcoin"] →
      strings.Contains article.Article.Content "Bitcoin" = true →
      telegram.matchesAlert u article alert = true) := by
  refine ⟨?_, ?_⟩
  · intro alert hc ht
    simp [telegram.matchesAlert, hc, ht]
  · intro alert hk hbody
    have hlow := contains_toLower_of_contains_content u article.Article.Title
      article.Article.Content "Bitcoin" hbody
    have hword : strings.ToLower u "Bitcoin" = strings.ToLower u "bitcoin" := rfl
    rw [hword] at hlow
    simp [telegram.matchesAlert, hk, hlow]

theorem matchesAlert_keyword_clause_witness :
    (telegram.matchesAlert sample.tables (sample.enriched "" "Markets" "Why Bitcoin fell")
        (sample.rule [] ["bitcoin"]) = true ↔
      ∃ keyword ∈ (sample.rule [] ["bitcoin"]).Keywords,
        strings.Contains
          (strings.ToLower sample.tables
            ((sample.enriched "" "Markets" "Why Bitcoin fell").Article.Title ++ " "
              ++ (sample.enriched "" "Markets" "Why Bitcoin fell").Article.Content))
          (strings.ToLower sample.tables keyword) = true) ∧
    telegram.matchesAlert sample.tables (sample.enriched "" "Markets" "Why Bitcoin fell")
        (sample.rule [] ["bitcoin"]) = true :=
  ⟨(matchesAlert_keyword_clause sample.tables (sample.enriched "" "Markets" "Why Bitcoin fell")).1
      (sample.rule [] ["bitcoin"]) rfl rfl,
    (matchesAlert_keyword_clause sample.tables (sample.enriched "" "Markets" "Why Bitcoin fell")).2
      (sample.rule [] ["bitcoin"]) rfl (by decide)⟩

/-- C10 fails as stated: the keyword "bitcoin" is a substring of the title
"bit" immediately followed by the body "coin", yet the rule does not match,
the code searching in "bit coin"; and the keyword "t c" is no substring of
"bitcoin", yet the rule with that keyword matches. -/
theorem matchesAlert_keyword_concatenation_counterexample :
    (sample.rule [] ["bitcoin"]).Categories = [] ∧ (sample.rule [] ["bitcoin"]).Tags = [] ∧
    strings.Contains
      (strings.ToLower sample.tables
        ((sample.enriched "" "bit" "coin").Article.Title
          ++ (sample.enriched "" "bit" "coin").Article.Content))
      (strings.ToLower sample.tables "bitcoin") = true ∧
    telegram.matchesAlert sample.tables (sample.enriched "" "bit" "coin")
      (sample.rule [] ["bitcoin"]) = false ∧
    strings.Contains
      (strings.ToLower sample.tables
        ((sample.enriched "" "bit" "coin").Article.Title
          ++ (sample.enriched "" "bit" "coin").Article.Content))
      (strings.ToLower sample.tables "t c") = false ∧
    telegram.matchesAlert sample.tables (sample.enriched "" "bit" "coin")
      (sample.rule [] ["t c"]) = true := by
  decide

/-! ## The dispatch loop -/

theorem foldl_sendAlertStep (u : unicode.Tables) (percent : Rat → String)
    (article : models.CategorizedArticle) (es : List (Sigma fun _ : Int => UserAlert))
    (sent : List telegram.Sent) :
    es.foldl (fun sent e => telegram.sendAlertStep u percent article sent e.2) sent
      = sent ++ (es.filter (fun e => e.2.Enabled && telegram.matchesAlert u article e.2)).map
          (fun e => { chatID := e.2.ChatID, text := telegram.formatAlertMessage percent article }) := by
  induction es generalizing sent with
  | nil => simp
  | cons e es ih =>
    rw [List.foldl_cons, ih]
    unfold telegram.sendAlertStep
    cases hen : e.2.Enabled <;> cases hm : telegram.matchesAlert u article e.2 <;>
      simp [List.filter_cons, hen, hm]

theorem sendAlert_eq_filter_map (u : unicode.Tables) (percent : Rat → String) (b : telegram.Bot)
    (article : models.CategorizedArticle) :
    telegram.SendAlert u percent b article
      = (b.userAlerts.entries.filter
          (fun e => e.2.Enabled && telegram.matchesAlert u article e.2)).map
          (fun e => { chatID := e.2.ChatID, text := telegram.formatAlertMessage percent article }) := by
  unfold telegram.SendAlert
  rw [foldl_sendAlertStep]
  simp

theorem matchesAlert_of_empty (u : unicode.Tables) (article : models.CategorizedArticle)
    (alert : UserAlert) (hc : alert.Categories = []) (hk : alert.Keywords = [])
    (ht : alert.Tags = []) : telegram.matchesAlert u article alert = false := by
  simp [telegram.matchesAlert, hc, hk, ht]

/-! ## C11 -/

/-- C11: on a rule with no categories, no keywords and no tags `matchesAlert`
returns false for every item; the loop of `SendAlert` sends no message for
such a rule, and when every stored rule of a chat is such a rule, `SendAlert`
sends nothing to that chat. -/
theorem matchesAlert_empty_rule_never_matches (u : unicode.Tables) (percent : Rat → String)
    (article : models.CategorizedArticle) :
    (∀ alert : UserAlert, alert.Categories = [] → alert.Keywords = [] → alert.Tags = [] →
      telegram.matchesAlert u article alert = false ∧
      ∀ sent : List telegram.Sent, telegram.sendAlertStep u percent article sent alert = sent) ∧
    (∀ (b : telegram.Bot) (chat : Int),
      (∀ e ∈ b.userAlerts.entries, e.2.ChatID = chat →
        e.2.Categories = [] ∧ e.2.Keywords = [] ∧ e.2.Tags = []) →
      ∀ m ∈ telegram.SendAlert u percent b article, m.chatID ≠ chat) := by
  refine ⟨?_, ?_⟩
  · intro alert hc hk ht
    have hno := matchesAlert_of_empty u article alert hc hk ht
    refine ⟨hno, ?_⟩
    intro sent
    unfold telegram.sendAlertStep
    cases alert.Enabled <;> simp [hno]
  · intro b chat hempty m hm hchat
    rw [sendAlert_eq_filter_map, List.mem_map] at hm
    obtain ⟨e, he, hme⟩ := hm
    rw [List.mem_filter] at he
    obtain ⟨hmem, hcond⟩ := he
    have hechat : e.2.ChatID = chat := by
      rw [← hme] at hchat
      exact hchat
    obtain ⟨hc, hk, ht⟩ := hempty e hmem hechat
    rw [matchesAlert_of_empty u article e.2 hc hk ht] at hcond
    simp at hcond

theorem matchesAlert_empty_rule_never_matches_witness :
    (telegram.matchesAlert sample.tables (sample.enriched "Technology" "Chips" "New chips")
        sample.emptyRule = false ∧
      ∀ sent : List telegram.Sent,
        telegram.sendAlertStep sample.tables sample.percent
          (sample.enriched "Technology" "Chips" "New chips") sent sample.emptyRule = sent) ∧
    ∀ m ∈ telegram.SendAlert sample.tables sample.percent sample.bot
        (sample.enriched "Technology" "Chips" "New chips"),
      m.chatID ≠ 8 :=
  ⟨(matchesAlert_empty_rule_never_matches sample.tables sample.percent
      (sample.enriched "Technology" "Chips" "New chips")).1 sample.emptyRule rfl rfl rfl,
    (matchesAlert_empty_rule_never_matches sample.tables sample.percent
      (sample.enriched "Technology" "Chips" "New chips")).2 sample.bot 8 (by decide)⟩

theorem entry_eq_of_lookup (b : telegram.Bot) (userID : Int) (alert : UserAlert)
    (hlook : b.userAlerts.lookup userID = some alert)
    (e : Sigma fun _ : Int => UserAlert) (he : e ∈ b.userAlerts.entries) (hkey : e.1 = userID) :
    e = ⟨userID, alert⟩ := by
  obtain ⟨k, v⟩ := e
  simp only at hkey
  subst hkey
  have hv : v ∈ b.userAlerts.lookup k := AList.mem_lookup_iff.mpr he
  rw [hlook] at hv
  have : alert = v := by simpa using hv
  rw [this]

theorem countP_single_entry (b : telegram.Bot) (userID : Int) (alert : UserAlert)
    (hlook : b.userAlerts.lookup userID = some alert) (q : UserAlert → Bool)
    (honly : ∀ e ∈ b.userAlerts.entries, e.2.ChatID = alert.ChatID → e.1 = userID) :
    b.userAlerts.entries.countP (fun e => decide (e.2.ChatID = alert.ChatID) && q e.2)
      = if q alert then 1 else 0 := by
  have hmem : (⟨userID, alert⟩ : Sigma fun _ : Int => UserAlert) ∈ b.userAlerts.entries :=
    AList.mem_lookup_iff.mp (by simp [hlook])
  have hnodup : b.userAlerts.entries.Nodup := b.userAlerts.nodupKeys.nodup
  by_cases hq : q alert = true
  · have hcongr : b.userAlerts.entries.countP
          (fun e => decide (e.2.ChatID = alert.ChatID) && q e.2)
        = b.userAlerts.entries.countP
          (fun e => e == (⟨userID, alert⟩ : Sigma fun _ : Int => UserAlert)) := by
      apply List.countP_congr
      intro e he
      constructor
      · intro hp
        have hchat : e.2.ChatID = alert.ChatID := by
          simp only [Bool.and_eq_true, decide_eq_true_eq] at hp
          exact hp.1
        have := entry_eq_of_lookup b userID alert hlook e he (honly e he hchat)
        simp [this]
      · intro hp
        have heq : e = ⟨userID, alert⟩ := by simpa using hp
        rw [heq]
        simp [hq]
    rw [hcongr, hq]
    exact List.count_eq_one_of_mem hnodup hmem
  · have hzero : b.userAlerts.entries.countP
          (fun e => decide (e.2.ChatID = alert.ChatID) && q e.2) = 0 := by
      rw [List.countP_eq_zero]
      intro e he hp
      have hchat : e.2.ChatID = alert.ChatID := by
        simp only [Bool.and_eq_true, decide_eq_true_eq] at hp
        exact hp.1
      have heq := entry_eq_of_lookup b userID alert hlook e he (honly e he hchat)
      rw [heq] at hp
      simp only [Bool.and_eq_true] at hp
      exact hq hp.2
    rw [hzero]
    simp [hq]

/-! ## C12 -/

/-- C12: for every enriched item and every rule store, the messages sent by
`SendAlert` are, in the order of the store, one message to the chat of each
stored rule that is enabled and matches; a rule that is disabled or does not
match adds no message. So the number of messages to a chat is the number of
stored rules of that chat that are enabled and match, and a chat with one
stored rule gets exactly one message when that rule is enabled and matches,
and none otherwise. -/
theorem sendAlert_dispatch_set (u : unicode.Tables) (percent : Rat → String) (b : telegram.Bot)
    (article : models.CategorizedArticle) :
    telegram.SendAlert u percent b article
      = (b.userAlerts.entries.filter
          (fun e => e.2.Enabled && telegram.matchesAlert u article e.2)).map
          (fun e => { chatID := e.2.ChatID, text := telegram.formatAlertMessage percent article }) ∧
    (∀ (sent : List telegram.Sent) (alert : UserAlert),
      (alert.Enabled = true → telegram.matchesAlert u article alert = true →
        telegram.sendAlertStep u percent article sent alert
          = sent ++ [{ chatID := alert.ChatID,
                       text := telegram.formatAlertMessage percent article }]) ∧
      (alert.Enabled = false ∨ telegram.matchesAlert u article alert = false →
        telegram.sendAlertStep u percent article sent alert = sent)) ∧
    (∀ chat : Int,
      (telegram.SendAlert u percent b article).countP (fun m => decide (m.chatID = chat))
        = b.userAlerts.entries.countP
            (fun e => decide (e.2.ChatID = chat)
              && (e.2.Enabled && telegram.matchesAlert u article e.2))) ∧
    (∀ (userID : Int) (alert : UserAlert), b.userAlerts.lookup userID = some alert →
      (∀ e ∈ b.userAlerts.entries, e.2.ChatID = alert.ChatID → e.1 = userID) →
      (telegram.SendAlert u percent b article).countP
          (fun m => decide (m.chatID = alert.ChatID))
        = if alert.Enabled && telegram.matchesAlert u article alert then 1 else 0) := by
  have hcount : ∀ chat : Int,
      (telegram.SendAlert u percent b article).countP (fun m => decide (m.chatID = chat))
        = b.userAlerts.entries.countP
            (fun e => decide (e.2.ChatID = chat)
              && (e.2.Enabled && telegram.matchesAlert u article e.2)) := by
    intro chat
    rw [sendAlert_eq_filter_map, List.countP_map, List.countP_filter]
    rfl
  refine ⟨sendAlert_eq_filter_map u percent b article, ?_, hcount, ?_⟩
  · intro sent alert
    refine ⟨?_, ?_⟩
    · intro hen hm
      simp [telegram.sendAlertStep, hen, hm]
    · intro hoff
      unfold telegram.sendAlertStep
      rcases hoff with hen | hm
      · simp [hen]
      · simp [hm]
  · intro userID alert hlook honly
    rw [hcount alert.ChatID]
    exact countP_single_entry b userID alert hlook
      (fun a => a.Enabled && telegram.matchesAlert u article a) honly

theorem sendAlert_dispatch_set_witness :
    (telegram.SendAlert sample.tables sample.percent sample.bot
        (sample.enriched "Technology" "Chips" "New chips")).countP
        (fun m => decide (m.chatID = (sample.rule ["technology"] []).ChatID))
      = (if (sample.rule ["technology"] []).Enabled
            && telegram.matchesAlert sample.tables
              (sample.enriched "Technology" "Chips" "New chips") (sample.rule ["technology"] [])
          then 1 else 0) ∧
    telegram.sendAlertStep sample.tables sample.percent
        (sample.enriched "Technology" "Chips" "New chips") [] sample.disabledRule = [] :=
  ⟨(sendAlert_dispatch_set sample.tables sample.percent sample.bot
      (sample.enriched "Technology" "Chips" "New chips")).2.2.2 7 (sample.rule ["technology"] [])
      (by decide) (by decide),
    ((sendAlert_dispatch_set sample.tables sample.percent sample.bot
      (sample.enriched "Technology" "Chips" "New chips")).2.1 [] sample.disabledRule).2
      (Or.inl rfl)⟩

/-! ## The fetch stage -/

theorem foldl_merge_eq (results : List (Except String (List Article))) (acc : List Article) :
    results.foldl
        (fun allArticles r =>
          match r with
          | .ok articles => allArticles ++ articles
          | .error _ => allArticles)
        acc
      = acc ++ (results.map contribution).flatten := by
  induction results generalizing acc with
  | nil => simp
  | cons r results ih =>
    rw [List.foldl_cons, ih]
    cases r <;> simp [contribution]

theorem mergeFetched_eq_flatten (results : List (Except String (List Article))) :
    mergeFetched results = (results.map contribution).flatten := by
  unfold mergeFetched
  rw [foldl_merge_eq]
  simp

/-! ## C13 -/

/-- C13: whatever the order `results` in which the goroutines of the sources
`srcs` reach the merge, the merged batch is a permutation of the lists of the
sources that succeeded put together, a failed source adding nothing; so every
item occurs in the batch as often as in these lists together, and with three
sources of which the second fails the batch is the items of the first and of
the third. -/
theorem mergeFetched_union_of_successes (srcs results : List (Except String (List Article)))
    (horder : results.Perm srcs) :
    (mergeFetched results).Perm ((srcs.map contribution).flatten) ∧
    (∀ x : Article,
      (mergeFetched results).count x = ((srcs.map contribution).flatten).count x) ∧
    (∀ (a c : List Article) (e : String), srcs = [Except.ok a, Except.error e, Except.ok c] →
      (mergeFetched results).Perm (a ++ c) ∧
      mergeFetched srcs = a ++ c) := by
  have hperm : (mergeFetched results).Perm ((srcs.map contribution).flatten) := by
    rw [mergeFetched_eq_flatten]
    exact (horder.map contribution).flatten
  refine ⟨hperm, fun x => hperm.count_eq x, ?_⟩
  intro a c e hsrcs
  have hflat : (srcs.map contribution).flatten = a ++ c := by
    rw [hsrcs]
    simp [contribution]
  refine ⟨?_, ?_⟩
  · rw [← hflat]
    exact hperm
  · rw [mergeFetched_eq_flatten, hflat]

theorem mergeFetched_union_of_successes_witness :
    (mergeFetched [Except.ok [sample.other], Except.error "treenews returned status 503",
        Except.ok [sample.fromNewsAPI]]).Perm ([sample.fromNewsAPI] ++ [sample.other]) ∧
    mergeFetched [Except.ok [sample.fromNewsAPI], Except.error "treenews returned status 503",
        Except.ok [sample.other]] = [sample.fromNewsAPI] ++ [sample.other] :=
  (mergeFetched_union_of_successes
    [Except.ok [sample.fromNewsAPI], Except.error "treenews returned status 503",
      Except.ok [sample.other]]
    [Except.ok [sample.other], Except.error "treenews returned status 503",
      Except.ok [sample.fromNewsAPI]]
    (((List.Perm.swap _ _ _).trans ((List.Perm.swap _ _ _).cons _)).trans
      (List.Perm.swap _ _ _))).2.2
    [sample.fromNewsAPI] [sample.other] "treenews returned status 503" rfl

/-! ## C14 -/

theorem treeNewsLoop_eq_take (sum256hex : String → String) (limit : Nat)
    (messages : List sources.TreeNewsMessage) (articles : List Article) :
    sources.treeNewsLoop sum256hex (limit : Int) messages articles
      = articles
        ++ (messages.take (limit - articles.length)).map (sources.treeNewsArticle sum256hex) := by
  induction messages generalizing articles with
  | nil => simp [sources.treeNewsLoop]
  | cons msg rest ih =>
    unfold sources.treeNewsLoop
    by_cases hfull : (articles.length : Int) ≥ (limit : Int)
    · have hzero : limit - articles.length = 0 := by omega
      simp [hfull, hzero]
    · have hpos : limit - articles.length = (limit - (articles.length + 1)) + 1 := by omega
      rw [if_neg hfull, ih, hpos]
      simp [List.take_succ_cons]

/-- C14: for every decoded list of messages and every limit `L >= 0`, after an
answer with status 200 `FetchArticles` returns the conversion, in order, of the
first `min(n, L)` of the `n` messages: a list of length `min(n, L)`, never
longer than `L`. -/
theorem fetchArticles_capped (sum256hex : String → String)
    (messages : List sources.TreeNewsMessage) (limit : Int) (hlimit : 0 ≤ limit) :
    sources.FetchArticles sum256hex (sources.Exchange.answered 200 (Except.ok messages)) limit
      = Except.ok ((messages.take (min messages.length limit.toNat)).map
          (sources.treeNewsArticle sum256hex)) ∧
    ((messages.take (min messages.length limit.toNat)).map
        (sources.treeNewsArticle sum256hex)).length = min messages.length limit.toNat ∧
    ((((messages.take (min messages.length limit.toNat)).map
        (sources.treeNewsArticle sum256hex)).length : Nat) : Int) ≤ limit := by
  have hloop := treeNewsLoop_eq_take sum256hex limit.toNat messages []
  rw [Int.toNat_of_nonneg hlimit] at hloop
  have htake : messages.take (min messages.length limit.toNat) = messages.take limit.toNat := by
    rcases Nat.le_total messages.length limit.toNat with hle | hle
    · rw [Nat.min_eq_left hle, List.take_length, List.take_of_length_le hle]
    · rw [Nat.min_eq_right hle]
  refine ⟨?_, ?_, ?_⟩
  · rw [htake]
    simp [sources.FetchArticles, hloop]
  · simp
  · simp only [List.length_map, List.length_take]
    omega

theorem fetchArticles_capped_witness :
    sources.FetchArticles sample.digest
        (sources.Exchange.answered 200 (Except.ok sample.messages)) 1
      = Except.ok ((sample.messages.take (min sample.messages.length (1 : Int).toNat)).map
          (sources.treeNewsArticle sample.digest)) ∧
    ((sample.messages.take (min sample.messages.length (1 : Int).toNat)).map
        (sources.treeNewsArticle sample.digest)).length = 1 :=
  ⟨(fetchArticles_capped sample.digest sample.messages 1 (by decide)).1, by decide⟩

/-! ## C15 -/

theorem processed_of_stored_apply (c : Cache) (op : Op)
    (hinv : ∀ h : String, c.articles.lookup h ≠ none → c.processed.lookup h ≠ none) :
    ∀ h : String, (op.apply c).articles.lookup h ≠ none → (op.apply c).processed.lookup h ≠ none := by
  intro h
  cases op with
  | add article now =>
    by_cases hh : h = article.Hash
    · subst hh
      simp [Op.apply, AddArticle, AList.lookup_insert]
    · simp only [Op.apply, AddArticle, AList.lookup_insert_ne hh]
      exact hinv h
  | mark hash now =>
    by_cases hh : h = hash
    · subst hh
      simp [Op.apply, MarkProcessed, AList.lookup_insert]
    · simp only [Op.apply, MarkProcessed, AList.lookup_insert_ne hh]
      exact hinv h
  | cleanup now =>
    simp only [Op.apply, performCleanup_articles_lookup, performCleanup_processed_lookup]
    cases expired c now h
    · simpa using hinv h
    · simp

theorem processed_of_stored_run (ops : List Op) (c : Cache)
    (hinv : ∀ h : String, c.articles.lookup h ≠ none → c.processed.lookup h ≠ none) :
    ∀ h : String, (run c ops).articles.lookup h ≠ none → (run c ops).processed.lookup h ≠ none := by
  induction ops generalizing c with
  | nil => simpa [run] using hinv
  | cons op ops ih =>
    have := ih (op.apply c) (processed_of_stored_apply c op hinv)
    simpa [run] using this

theorem foldl_unprocessed_of_all_processed (c : Cache)
    (es : List (Sigma fun _ : String => Article)) (acc : List Article)
    (hall : ∀ e ∈ es, c.processed.lookup e.1 ≠ none) :
    es.foldl
        (fun unprocessed e =>
          match c.processed.lookup e.1 with
          | some _ => unprocessed
          | none => unprocessed ++ [e.2])
        acc = acc := by
  induction es generalizing acc with
  | nil => rfl
  | cons e es ih =>
    rw [List.foldl_cons]
    have he := hall e (List.mem_cons_self _ _)
    cases hl : c.processed.lookup e.1 with
    | none => exact absurd hl he
    | some t =>
      simp only
      exact ih acc (fun e' he' => hall e' (List.mem_cons_of_mem _ he'))

/-- C15: in every cache state reached from `New` by any sequence of
`AddArticle`, `MarkProcessed` and `performCleanup` calls, every fingerprint
with a stored item has a processed-at timestamp; `GetUnprocessedArticles`
returns the empty list and `Stats` reports `total_articles <= processed`. -/
theorem reachable_stored_implies_processed (retention : Int) (ops : List Op) :
    (∀ h : String, HasArticle (run (New retention) ops) h = true →
      ∃ t : Int, (run (New retention) ops).processed.lookup h = some t) ∧
    GetUnprocessedArticles (run (New retention) ops) = [] ∧
    (Stats (run (New retention) ops)).total_articles
      ≤ (Stats (run (New retention) ops)).processed := by
  have hinv : ∀ h : String, (run (New retention) ops).articles.lookup h ≠ none →
      (run (New retention) ops).processed.lookup h ≠ none :=
    processed_of_stored_run ops (New retention) (by
      intro h hstored
      exact absurd (AList.lookup_empty h) hstored)
  refine ⟨?_, ?_, ?_⟩
  · intro h hhas
    have hstored : (run (New retention) ops).articles.lookup h ≠ none := by
      rw [hasArticle_eq_isSome] at hhas
      intro hnone
      rw [hnone] at hhas
      exact Bool.false_ne_true hhas
    exact Option.ne_none_iff_exists'.mp (hinv h hstored)
  · unfold GetUnprocessedArticles
    apply foldl_unprocessed_of_all_processed
    intro e he
    apply hinv
    have hv : e.2 ∈ (run (New retention) ops).articles.lookup e.1 :=
      AList.mem_lookup_iff.mpr he
    intro hnone
    rw [hnone] at hv
    exact absurd hv (by simp)
  · have hsub : (run (New retention) ops).articles.keys ⊆ (run (New retention) ops).processed.keys := by
      intro h hkey
      have hmem : h ∈ (run (New retention) ops).articles := AList.mem_keys.mpr hkey
      have hstored : (run (New retention) ops).articles.lookup h ≠ none :=
        fun hnone => (AList.lookup_eq_none.mp hnone) hmem
      have hproc : h ∈ (run (New retention) ops).processed := by
        by_contra hnot
        exact hinv h hstored (AList.lookup_eq_none.mpr hnot)
      exact AList.mem_keys.mp hproc
    have hle := (List.subperm_of_subset (run (New retention) ops).articles.keys_nodup hsub).length_le
    simpa [Stats, AList.keys, List.keys] using hle

theorem reachable_stored_implies_processed_witness :
    ∃ t : Int,
      (run (New sample.day)
        [Op.add sample.fromNewsAPI 0, Op.mark "zz" 3, Op.cleanup (sample.day + 1),
          Op.add sample.other (sample.day + 2)]).processed.lookup "g" = some t :=
  (reachable_stored_implies_processed sample.day
    [Op.add sample.fromNewsAPI 0, Op.mark "zz" 3, Op.cleanup (sample.day + 1),
      Op.add sample.other (sample.day + 2)]).1 "g" (by decide)

/-! ## C16 -/

theorem containsRunes_nil (s : List Char) : strings.containsRunes s [] = true := by
  cases s <;> simp [strings.containsRunes]

/-- C16: a rule with the empty string among its keywords matches every
enriched item, whatever its title, body, category and tags; and for the
command text "/alert set keywords=", `handleAlertCommand` stores for the user
an enabled rule whose only keyword is the empty string, with no category and
no tag, which therefore matches every item. -/
theorem matchesAlert_empty_keyword (u : unicode.Tables) (article : models.CategorizedArticle) :
    (∀ alert : UserAlert, "" ∈ alert.Keywords → telegram.matchesAlert u article alert = true) ∧
    (∀ (whiteSpace : Char → Bool) (b : telegram.Bot) (userID chatID : Int),
      (telegram.handleAlertCommand whiteSpace b userID chatID
          "/alert set keywords=").1.userAlerts.lookup userID
        = some { UserID := userID, ChatID := chatID, Keywords := [""], Categories := [],
                 Tags := [], Enabled := true } ∧
      ∀ stored ∈ (telegram.handleAlertCommand whiteSpace b userID chatID
          "/alert set keywords=").1.userAlerts.lookup userID,
        telegram.matchesAlert u article stored = true) := by
  have hmatch : ∀ alert : UserAlert, "" ∈ alert.Keywords →
      telegram.matchesAlert u article alert = true := by
    intro alert hmem
    have hkw : alert.Keywords.any (fun keyword =>
        strings.Contains
          (strings.ToLower u (article.Article.Title ++ " " ++ article.Article.Content))
          (strings.ToLower u keyword)) = true := by
      rw [List.any_eq_true]
      exact ⟨"", hmem, containsRunes_nil _⟩
    unfold telegram.matchesAlert
    rw [hkw]
    simp
  refine ⟨hmatch, ?_⟩
  intro whiteSpace b userID chatID
  have hstore : (telegram.handleAlertCommand whiteSpace b userID chatID
        "/alert set keywords=").1
      = { userAlerts := b.userAlerts.insert userID
            { UserID := userID, ChatID := chatID, Keywords := [""], Categories := [],
              Tags := [], Enabled := true } } := rfl
  have hlook : (telegram.handleAlertCommand whiteSpace b userID chatID
        "/alert set keywords=").1.userAlerts.lookup userID
      = some { UserID := userID, ChatID := chatID, Keywords := [""], Categories := [],
               Tags := [], Enabled := true } := by
    rw [hstore]
    exact AList.lookup_insert _
  refine ⟨hlook, ?_⟩
  intro stored hstored
  rw [hlook] at hstored
  have hEq := Option.mem_some_iff.mp hstored
  rw [← hEq]
  exact hmatch _ (by simp)

theorem matchesAlert_empty_keyword_witness :
    telegram.matchesAlert sample.tables (sample.enriched "sports" "Cup final" "A late goal")
        (sample.rule [] ["", "bitcoin"]) = true ∧
    telegram.matchesAlert sample.tables (sample.enriched "sports" "Cup final" "A late goal")
        { UserID := 7, ChatID := 70, Keywords := [""], Categories := [], Tags := [],
          Enabled := true } = true :=
  ⟨(matchesAlert_empty_keyword sample.tables
      (sample.enriched "sports" "Cup final" "A late goal")).1 (sample.rule [] ["", "bitcoin"])
      (by decide),
    ((matchesAlert_empty_keyword sample.tables
      (sample.enriched "sports" "Cup final" "A late goal")).2 (fun _ => false) sample.bot 7 70).2
      { UserID := 7, ChatID := 70, Keywords := [""], Categories := [], Tags := [],
        Enabled := true }
      (by decide)⟩
